import Mathlib

/-!
Verification development for the building-roof extraction pipeline of
ping13/wie-hoch-dachtraufe.

The pipeline under study is the pure core of
src/swissbuildings3d_etl.py: process_buildings_from_zips (lines 167-340),
together with the per-mesh height derivation in src/app.py (lines 84-103).

Embedding conventions:
  - Coordinates are rationals (exact real semantics of the Python floats).
  - The external shapely mask polygon and its geometric predicates
    (bounds, poly.is_valid, poly.within(mask)) are modelled as an oracle
    structure Mask; the pipeline's control flow is proved for every oracle.
  - The face normal computed by pyvista/VTK (vtkPolygon, Newell method,
    normalized) is modelled by newellNormal; a threshold test t on the
    z-component of the unit normal is encoded exactly on the unnormalized
    normal n as vz*vz < t*t*normSq n (resp. >), with the zero normal
    normalizing to the zero vector as in VTK.
  - The uncaught Python AssertionError of line 276 is modelled as
    Except.error () aborting the whole run.
-/

namespace Etl

/-- A 3D point (x, y, z), z = elevation in meters.  Models one coordinate
triple of a shapefile ring. -/
structure Point where
  x : ℚ
  y : ℚ
  z : ℚ
deriving DecidableEq

/-- A polygon ring: the ordered coordinate list of one boundary
(the source data may or may not repeat the first point as last). -/
abbrev Ring3D := List Point

/-- The `coordinates` member of a GeoJSON-style Polygon: the list of its
rings, exterior first.  Only the exterior (`p[0]` in the source) is used by
the pipeline's per-polygon work. -/
abbrev PolyC := List Ring3D

/-- A member of a GeometryCollection as handled by lines 226-231 of the
source: only Polygon and MultiPolygon members contribute rings; any other
member kind is ignored (its coordinates still participate in the feature's
shapely bounding box, hence the pts payload). -/
inductive SubGeom where
  | polygon (coords : PolyC)
  | multiPolygon (coords : List PolyC)
  | otherGeom (pts : List Point)
deriving DecidableEq

/-- The feature geometry tagged union of lines 202-235: Polygon,
MultiPolygon, GeometryCollection; every other top-level kind is
unsupported and skipped at line 203. -/
inductive Geom where
  | polygon (coords : PolyC)
  | multiPolygon (coords : List PolyC)
  | collection (members : List SubGeom)
  | unsupported (pts : List Point)
deriving DecidableEq

/-- All coordinate triples of a polygon (all rings, holes included),
as seen by shapely's bounds. -/
def polyPts (p : PolyC) : List Point :=
  p.foldl (fun a r => a ++ r) []

/-- Coordinates of a collection member, for bounding-box purposes. -/
def SubGeom.pts : SubGeom → List Point
  | .polygon c => polyPts c
  | .multiPolygon cs => cs.foldl (fun a c => a ++ polyPts c) []
  | .otherGeom ps => ps

/-- All coordinate triples of a geometry, as seen by shapely's bounds
(geometry.shape(geom).bounds at line 212). -/
def Geom.pts : Geom → List Point
  | .polygon c => polyPts c
  | .multiPolygon cs => cs.foldl (fun a c => a ++ polyPts c) []
  | .collection gs => gs.foldl (fun a g => a ++ g.pts) []
  | .unsupported ps => ps

/-- The geometry-kind gate of lines 203-208. -/
def Geom.supported : Geom → Bool
  | .unsupported _ => false
  | _ => true

/-- The polygon list collected at lines 225-235: a Polygon contributes its
own coordinates, a MultiPolygon its members, and a GeometryCollection the
Polygon and MultiPolygon members in iteration order. -/
def SubGeom.polys : SubGeom → List PolyC
  | .polygon c => [c]
  | .multiPolygon cs => cs
  | .otherGeom _ => []

/-- The flattened `polygons` list of lines 225-235. -/
def Geom.extractPolys : Geom → List PolyC
  | .polygon c => [c]
  | .multiPolygon cs => cs
  | .collection gs => gs.foldl (fun a g => a ++ g.polys) []
  | .unsupported _ => []

/-- The exterior ring `p[0]` of a polygon's coordinates. -/
def extRing (p : PolyC) : Ring3D :=
  p.headD []

/-- An axis-aligned bounding box in shapely's (minx, miny, maxx, maxy)
order. -/
structure BBox where
  minx : ℚ
  miny : ℚ
  maxx : ℚ
  maxy : ℚ
deriving DecidableEq

/-- shapely-style bounds of a point list. -/
def boundsOf : List Point → BBox
  | [] => ⟨0, 0, 0, 0⟩
  | p :: ps =>
      ps.foldl
        (fun b q => ⟨min b.minx q.x, min b.miny q.y, max b.maxx q.x, max b.maxy q.y⟩)
        ⟨p.x, p.y, p.x, p.y⟩

/-- The strict axis-aligned disjointness test of lines 216-221:
geom_bounds[2] < mask_bounds[0] or geom_bounds[0] > mask_bounds[2]
or geom_bounds[3] < mask_bounds[1] or geom_bounds[1] > mask_bounds[3]. -/
def bboxDisjoint (g m : BBox) : Bool :=
  decide (g.maxx < m.minx) || decide (g.minx > m.maxx) ||
  decide (g.maxy < m.miny) || decide (g.miny > m.maxy)

/-- The external mask polygon (shapely), modelled as an oracle: nonEmpty is
the Python truthiness of the mask object tested at line 210 (a shapely
geometry is truthy iff it is not empty); bounds is mask_multi_polygons.bounds
(line 213); isValid and within are shapely's poly.is_valid and
poly.within(mask) applied at lines 243-244 to the 2D polygon built from an
exterior ring's xy coordinates. -/
structure Mask where
  nonEmpty : Bool
  bounds : BBox
  isValid : List (ℚ × ℚ) → Bool
  within : List (ℚ × ℚ) → Bool

/-- The xy coordinate list of a polygon's exterior ring, from which line 242
builds the 2D shapely polygon. -/
def xyExt (p : PolyC) : List (ℚ × ℚ) :=
  (extRing p).map (fun q => (q.x, q.y))

/-- Result of the mask-containment stage of lines 237-253. -/
inductive MaskRes where
  | dropNoValid
  | dropOutside
  | keepR (R : List PolyC)
deriving DecidableEq

/-- Lines 237-253: with a mask, a polygon is collected into valid_polygons
iff it is valid and within the mask; an invalid polygon is silently skipped;
a valid polygon outside the mask sets found_points_outside.  The feature is
then dropped when valid_polygons is empty (first) or when any valid polygon
was outside (second); otherwise the valid polygons are retained. -/
def maskStage : Option Mask → List PolyC → MaskRes
  | none, polys => .keepR polys
  | some m, polys =>
      let valid := polys.filter (fun p => m.isValid (xyExt p) && m.within (xyExt p))
      let foundOutside := polys.any (fun p => m.isValid (xyExt p) && !(m.within (xyExt p)))
      if valid.isEmpty then .dropNoValid
      else if foundOutside then .dropOutside
      else .keepR valid

/-- Python math.fabs on exact rationals. -/
def rabs (q : ℚ) : ℚ :=
  if q < 0 then -q else q

/-- The assert of line 276 fails (raising AssertionError) iff some exterior
point has |x| + |y| + |z| <= 1. -/
def hasDegeneratePoint (R : List PolyC) : Bool :=
  R.any (fun p => (extRing p).any (fun q => !(decide (1 < rabs q.x + rabs q.y + rabs q.z))))

/-- The running minimum of lines 255-260: initialized with the sentinel
9999 and folded over every point of every retained polygon's exterior
ring. -/
def min_elevation_feature (R : List PolyC) : ℚ :=
  R.foldl (fun m p => (extRing p).foldl (fun m q => if q.z < m then q.z else m) m) 9999

/-- An unnormalized polygon normal. -/
structure Vec3 where
  vx : ℚ
  vy : ℚ
  vz : ℚ
deriving DecidableEq

/-- The cyclic edge list of a ring: (p0,p1), (p1,p2), ..., (pn,p0). -/
def cyclicEdges : List Point → List (Point × Point)
  | [] => []
  | a :: l => (a :: l).zip (l ++ [a])

/-- Newell's method for the (unnormalized) polygon normal, the method VTK
uses for polygon cell normals (pyvista compute_normals, line 288). -/
def newellNormal (r : Ring3D) : Vec3 :=
  (cyclicEdges r).foldl
    (fun n e =>
      ⟨n.vx + (e.1.y - e.2.y) * (e.1.z + e.2.z),
       n.vy + (e.1.z - e.2.z) * (e.1.x + e.2.x),
       n.vz + (e.1.x - e.2.x) * (e.1.y + e.2.y)⟩)
    ⟨0, 0, 0⟩

/-- Squared euclidean norm of a normal. -/
def normSq (n : Vec3) : ℚ :=
  n.vx * n.vx + n.vy * n.vy + n.vz * n.vz

/-- Exact encoding of "|z-component of the unit normal| < t" for the
nonnegative thresholds used by the source; a zero normal normalizes to the
zero vector (VTK), whose z-component is 0. -/
def unitZLt (n : Vec3) (t : ℚ) : Bool :=
  if normSq n = 0 then decide (0 < t) else decide (n.vz * n.vz < t * t * normSq n)

/-- Exact encoding of "|z-component of the unit normal| > t" for the
nonnegative thresholds used by the source. -/
def unitZGt (n : Vec3) (t : ℚ) : Bool :=
  if normSq n = 0 then decide (t < 0) else decide (t * t * normSq n < n.vz * n.vz)

/-- Classification outcome for one polygon face. -/
inductive FaceClass where
  | keep
  | wall
  | footprint
deriving DecidableEq

/-- Lines 287-302: the face built from one exterior ring is discarded as a
vertical wall when |normal.z| < 0.1; otherwise it is discarded as a ground
footprint when |normal.z| > 0.95 and every point's elevation is within
0.1 of the feature minimum (strictly); otherwise it is kept.  One ring
yields exactly one face, so np.all / np.any over the cell normals reduce to
a single per-face check. -/
def classifyPolygon (minElev : ℚ) (r : Ring3D) : FaceClass :=
  let n := newellNormal r
  if unitZLt n (1/10) then .wall
  else if unitZGt n (19/20) && r.all (fun q => decide (rabs (q.z - minElev) < 1/10)) then .footprint
  else .keep

/-- The faces surviving classification, in polygon order, each classified
against the one minimum elevation computed for the whole retained list
before any face is discarded (lines 255-308). -/
def keptFaces (R : List PolyC) : List Ring3D :=
  (R.filter (fun p => decide (classifyPolygon (min_elevation_feature R) (extRing p) = .keep))).map extRing

/-- One input feature record: geometry plus the properties consulted by the
pipeline (Layer, EntityHand, Height); none represents an absent key. -/
structure Feature where
  geom : Geom
  layer : Option String
  entityHand : Option String
  height : Option ℚ
deriving DecidableEq

/-- The emitted per-feature mesh record: user_dict id/layer/height of lines
315-321 plus the surviving faces. -/
structure Building where
  id : String
  layer : String
  height : ℚ
  faces : List Ring3D
deriving DecidableEq

/-- One emission: the layer_lut key (Layer defaulted to n/a, line 193), the
EntityHand attribute consulted at line 311, and the finished building. -/
structure Emit where
  layerKey : String
  srcId : Option String
  building : Building
deriving DecidableEq

/-- Per-feature outcome of one iteration of the loop of lines 187-329. -/
inductive Outcome where
  | filtered
  | unsupportedGeom
  | skippedOutside
  | droppedNoValid
  | droppedOutsideRing
  | emitted (e : Emit)
deriving DecidableEq

/-- The optional layer_types / entity_handles arguments (lines 195-200);
the empty list models the Python default None (both falsy). -/
structure Params where
  layer_types : List String
  entity_handles : List String
deriving DecidableEq

/-- No attribute filters: how src/app.py line 82 invokes the pipeline. -/
def noFilters : Params :=
  ⟨[], []⟩

/-- Line 195: skip when layer_types is truthy and the feature's Layer
(defaulted to n/a) differs from every requested type. -/
def layerFiltered (P : Params) (f : Feature) : Bool :=
  !P.layer_types.isEmpty && !(P.layer_types.contains (f.layer.getD "n/a"))

/-- Lines 197-199: skip when entity_handles is truthy and EntityHand
differs from every requested handle. -/
def entityFiltered (P : Params) (f : Feature) : Bool :=
  !P.entity_handles.isEmpty && P.entity_handles.all (fun h => f.entityHand != some h)

/-- Lines 210-223: the bounding-box fast path runs only when the mask is
truthy (present and nonempty) and skips the feature when the boxes are
strictly disjoint. -/
def bboxSkipped (mask : Option Mask) (f : Feature) : Bool :=
  match mask with
  | none => false
  | some m => m.nonEmpty && bboxDisjoint (boundsOf f.geom.pts) m.bounds

/-- Lines 310-314: EntityHand is used as the id when truthy (present and
nonempty), else the synthetic id building_<counter> is assigned and the
process-wide counter incremented. -/
def mkEmit (f : Feature) (c : ℕ) (faces : List Ring3D) : Emit × ℕ :=
  let key := f.layer.getD "n/a"
  let lay := f.layer.getD "unknown"
  let hei := f.height.getD 0
  match f.entityHand with
  | some s =>
      if s = "" then (⟨key, f.entityHand, ⟨"building_" ++ toString c, lay, hei, faces⟩⟩, c + 1)
      else (⟨key, f.entityHand, ⟨s, lay, hei, faces⟩⟩, c)
  | none => (⟨key, none, ⟨"building_" ++ toString c, lay, hei, faces⟩⟩, c + 1)

/-- One iteration of the feature loop (lines 187-329), given the current
synthetic-id counter; Except.error () is the uncaught AssertionError of
line 276. -/
def processFeature (P : Params) (mask : Option Mask) (f : Feature) (c : ℕ) :
    Except Unit (Outcome × ℕ) :=
  if layerFiltered P f then .ok (.filtered, c)
  else if entityFiltered P f then .ok (.filtered, c)
  else if !f.geom.supported then .ok (.unsupportedGeom, c)
  else if bboxSkipped mask f then .ok (.skippedOutside, c)
  else
    match maskStage mask f.geom.extractPolys with
    | .dropNoValid => .ok (.droppedNoValid, c)
    | .dropOutside => .ok (.droppedOutsideRing, c)
    | .keepR R =>
        if hasDegeneratePoint R then .error ()
        else
          let ec := mkEmit f c (keptFaces R)
          .ok (.emitted ec.1, ec.2)

/-- skip_count (line 222) is incremented exactly by the bounding-box fast
path. -/
def skipDelta : Outcome → ℕ
  | .skippedOutside => 1
  | _ => 0

/-- The emissions contributed by one outcome. -/
def emitList : Outcome → List Emit
  | .emitted e => [e]
  | _ => []

/-- Mutable loop state of the run: building_counter (line 171), skip_count
(line 176), and the emission sequence in processing order. -/
structure RunState where
  counter : ℕ
  skips : ℕ
  emits : List Emit
deriving DecidableEq

/-- The feature loop of lines 187-329; an assertion failure aborts the
whole run. -/
def runAux (P : Params) (mask : Option Mask) : List Feature → RunState → Except Unit RunState
  | [], st => .ok st
  | f :: fs, st =>
      match processFeature P mask f st.counter with
      | .error e => .error e
      | .ok (o, c) => runAux P mask fs ⟨c, st.skips + skipDelta o, st.emits ++ emitList o⟩

/-- Lines 326-329: dict upsert on layer_lut, appending to an existing
key's list and appending a fresh key at the end (Python dicts preserve
insertion order). -/
def lutAdd (lut : List (String × List Building)) (k : String) (b : Building) :
    List (String × List Building) :=
  match lut with
  | [] => [(k, [b])]
  | (k2, bs) :: rest =>
      if k2 = k then (k2, bs ++ [b]) :: rest else (k2, bs) :: lutAdd rest k b

/-- layer_lut as built by applying lutAdd to each emission in processing
order. -/
def buildLut (es : List Emit) : List (String × List Building) :=
  es.foldl (fun l e => lutAdd l e.layerKey e.building) []

/-- Observable result of a completed run: the returned layer_lut, the
logged skip_count, the emission sequence and the final counter. -/
structure RunResult where
  lut : List (String × List Building)
  skips : ℕ
  emits : List Emit
  counter : ℕ
deriving DecidableEq

/-- The pure core of process_buildings_from_zips (lines 167-340): fold the
feature loop over the feature sequence, starting from counter 0 and
skip_count 0; an assertion failure aborts with no result. -/
def process_buildings_from_zips (P : Params) (mask : Option Mask) (fs : List Feature) :
    Except Unit RunResult :=
  match runAux P mask fs ⟨0, 0, []⟩ with
  | .error e => .error e
  | .ok st => .ok ⟨buildLut st.emits, st.skips, st.emits, st.counter⟩

/-- np.min semantics: minimum of a nonempty rational list. -/
def listMinQ : List ℚ → Option ℚ
  | [] => none
  | a :: l => some (l.foldl (fun m z => if z < m then z else m) a)

/-- np.max semantics: maximum of a nonempty rational list. -/
def listMaxQ : List ℚ → Option ℚ
  | [] => none
  | a :: l => some (l.foldl (fun m z => if m < z then z else m) a)

/-- src/app.py lines 88-95: z_coords = mesh.points[:, 2]; heights are
computed only under "if z_coords.any():", numpy truthiness, i.e. only when
some surviving z coordinate is nonzero; otherwise both heights stay None. -/
def appHeights (b : Building) : Option ℚ × Option ℚ :=
  let zs := (b.faces.foldl (fun a r => a ++ r) []).map Point.z
  if zs.any (fun z => !(decide (z = 0))) then (listMinQ zs, listMaxQ zs) else (none, none)

/-- All exterior points of a retained polygon list, in order. -/
def allExtPts (R : List PolyC) : List Point :=
  R.foldl (fun a p => a ++ extRing p) []

/-- Modelled from the spec: the true minimum z over all points of all
retained rings (the value the spec says min_elevation_feature equals);
stated for comparison with the source's sentinel-initialized fold. -/
def specMinZ (R : List PolyC) : Option ℚ :=
  listMinQ ((allExtPts R).map Point.z)

end Etl

namespace Etl

lemma normSq_nonneg (n : Vec3) : 0 ≤ normSq n :=
  add_nonneg (add_nonneg (mul_self_nonneg _) (mul_self_nonneg _)) (mul_self_nonneg _)

lemma unitZGt_not_lt (n : Vec3) (h : unitZGt n (19/20) = true) :
    unitZLt n (1/10) = false := by
  unfold unitZGt at h
  unfold unitZLt
  by_cases h0 : normSq n = 0
  · rw [if_pos h0] at h
    rw [decide_eq_true_eq] at h
    norm_num at h
  · rw [if_neg h0] at h
    rw [if_neg h0]
    rw [decide_eq_true_eq] at h
    rw [decide_eq_false_iff_not]
    intro hlt
    have hs := normSq_nonneg n
    nlinarith [h, hlt, hs]

lemma mem_set_self {α : Type} (l : List α) (i : ℕ) (a : α) (h : i < l.length) :
    a ∈ l.set i a := by
  induction l generalizing i with
  | nil => simp at h
  | cons b t ih =>
      cases i with
      | zero => simp
      | succ j =>
          rw [List.set_cons_succ]
          exact List.mem_cons.2 (Or.inr (ih j (by simpa using h)))

/-- Claim C2: a ring whose face normal has |unit z| > 0.95 and whose points all lie
within 0.10 of the feature minimum is discarded as a footprint; raising any
single point's elevation to the minimum plus 0.11 takes the face out of the
footprint-discard branch. -/
theorem claim2_footprint_rule (minElev : ℚ) (r : Ring3D) (i : ℕ) (x y : ℚ)
    (hnz : unitZGt (newellNormal r) (19/20) = true)
    (hall : ∀ q ∈ r, rabs (q.z - minElev) < 1/10)
    (hi : i < r.length) :
    classifyPolygon minElev r = .footprint ∧
    classifyPolygon minElev (r.set i ⟨x, y, minElev + 11/100⟩) ≠ .footprint := by
  constructor
  · have hwall := unitZGt_not_lt _ hnz
    have hallb : r.all (fun q => decide (rabs (q.z - minElev) < 1/10)) = true := by
      rw [List.all_eq_true]
      intro q hq
      exact decide_eq_true (hall q hq)
    simp only [classifyPolygon]
    rw [if_neg (by rw [hwall]; exact Bool.false_ne_true)]
    rw [if_pos (by rw [Bool.and_eq_true]; exact ⟨hnz, hallb⟩)]
  · intro hcontra
    have hmem : (⟨x, y, minElev + 11/100⟩ : Point) ∈ r.set i ⟨x, y, minElev + 11/100⟩ :=
      mem_set_self _ _ _ hi
    simp only [classifyPolygon] at hcontra
    by_cases h1 : unitZLt (newellNormal (r.set i ⟨x, y, minElev + 11/100⟩)) (1/10) = true
    · rw [if_pos h1] at hcontra
      exact absurd hcontra (by simp)
    · rw [if_neg h1] at hcontra
      by_cases h2 : (unitZGt (newellNormal (r.set i ⟨x, y, minElev + 11/100⟩)) (19/20) &&
          (r.set i ⟨x, y, minElev + 11/100⟩).all
            (fun q => decide (rabs (q.z - minElev) < 1/10))) = true
      · have h2c := h2
        rw [Bool.and_eq_true] at h2c
        have hall2 := h2c.2
        rw [List.all_eq_true] at hall2
        have hq := hall2 _ hmem
        rw [decide_eq_true_eq] at hq
        have hz : minElev + 11/100 - minElev = 11/100 := by ring
        rw [hz] at hq
        have hq2 : (11/100 : ℚ) < 1/10 := by
          have h0 : rabs (11/100) = 11/100 := by
            unfold rabs
            norm_num
          rw [h0] at hq
          exact hq
        norm_num at hq2
      · rw [if_neg h2] at hcontra
        exact absurd hcontra (by simp)

/-- Claim C3: a ring is discarded as a vertical wall exactly when its single face
normal has |unit z| < 0.1 (one ring yields one face, so the np.all over the
ring's faces is one check); every face surviving into the mesh is classified
keep, so a wall-classified ring contributes no face. -/
theorem claim3_wall_rule (minElev : ℚ) (r : Ring3D) (R : List PolyC) :
    (classifyPolygon minElev r = .wall ↔ unitZLt (newellNormal r) (1/10) = true) ∧
    (∀ s ∈ keptFaces R, classifyPolygon (min_elevation_feature R) s = .keep) := by
  constructor
  · constructor
    · intro h
      by_cases h1 : unitZLt (newellNormal r) (1/10) = true
      · exact h1
      · exfalso
        simp only [classifyPolygon] at h
        rw [if_neg h1] at h
        by_cases h2 : (unitZGt (newellNormal r) (19/20) &&
            r.all (fun q => decide (rabs (q.z - minElev) < 1/10))) = true
        · rw [if_pos h2] at h
          exact absurd h (by simp)
        · rw [if_neg h2] at h
          exact absurd h (by simp)
    · intro h1
      simp only [classifyPolygon]
      rw [if_pos h1]
  · intro s hs
    simp only [keptFaces, List.mem_map] at hs
    obtain ⟨p, hp, rfl⟩ := hs
    have := (List.mem_filter.1 hp).2
    simpa using this

lemma mkEmit_fields (f : Feature) (c : ℕ) (fac : List Ring3D) :
    (mkEmit f c fac).1.building.layer = f.layer.getD "unknown" ∧
    (mkEmit f c fac).1.building.height = f.height.getD 0 ∧
    (mkEmit f c fac).1.building.faces = fac ∧
    (mkEmit f c fac).1.layerKey = f.layer.getD "n/a" ∧
    (mkEmit f c fac).1.srcId = f.entityHand := by
  unfold mkEmit
  cases f.entityHand with
  | none => simp
  | some s =>
      by_cases hs : s = ""
      · simp [hs]
      · simp [hs]

lemma processFeature_emit (P : Params) (mask : Option Mask) (f : Feature) (c c2 : ℕ)
    (e : Emit) (h : processFeature P mask f c = .ok (.emitted e, c2)) :
    ∃ R, maskStage mask f.geom.extractPolys = .keepR R ∧
      hasDegeneratePoint R = false ∧ (e, c2) = mkEmit f c (keptFaces R) := by
  simp only [processFeature] at h
  split at h
  · simp at h
  · split at h
    · simp at h
    · split at h
      · simp at h
      · split at h
        · simp at h
        · split at h
          · simp at h
          · simp at h
          · rename_i R hm
            split at h
            · simp at h
            · rename_i hd
              refine ⟨R, hm, by simpa using hd, ?_⟩
              have := h
              simp only [Except.ok.injEq, Prod.mk.injEq] at this
              obtain ⟨h1, h2⟩ := this
              rw [Prod.ext_iff]
              exact ⟨(Outcome.emitted.inj h1).symm, h2.symm⟩

/-- Claim C10: an emitted record's layer defaults to the literal "unknown" when the
feature has no Layer attribute, and its height defaults to the number 0 when
the feature has no Height attribute; the height field is total (a rational,
never absent). -/
theorem claim10_defaults (P : Params) (mask : Option Mask) (f : Feature) (c c2 : ℕ)
    (e : Emit) (h : processFeature P mask f c = .ok (.emitted e, c2)) :
    (f.layer = none → e.building.layer = "unknown") ∧
    (f.height = none → e.building.height = 0) := by
  obtain ⟨R, -, -, hmk⟩ := processFeature_emit P mask f c c2 e h
  have he : e = (mkEmit f c (keptFaces R)).1 := by
    rw [Prod.ext_iff] at hmk
    exact hmk.1
  obtain ⟨hl, hh, -, -, -⟩ := mkEmit_fields f c (keptFaces R)
  constructor
  · intro h0
    rw [he, hl, h0]
    rfl
  · intro h0
    rw [he, hh, h0]
    rfl

/-- Claim C8: a feature (with supported geometry, under the app's call with no
attribute filters) whose bounding box is strictly disjoint from a nonempty
mask's bounding box is skipped by the fast path for every containment and
validity oracle, producing no record, and a run step over it increments the
skip counter by exactly 1 while leaving counter and emissions unchanged. -/
theorem claim8_bbox_fastpath (bds : BBox) (v w : List (ℚ × ℚ) → Bool) (f : Feature)
    (c : ℕ) (st : RunState)
    (hsup : f.geom.supported = true)
    (hdisj : bboxDisjoint (boundsOf f.geom.pts) bds = true) :
    processFeature noFilters (some ⟨true, bds, v, w⟩) f c = .ok (.skippedOutside, c) ∧
    runAux noFilters (some ⟨true, bds, v, w⟩) [f] st = .ok ⟨st.counter, st.skips + 1, st.emits⟩ := by
  have h1 : layerFiltered noFilters f = false := by simp [layerFiltered, noFilters]
  have h2 : entityFiltered noFilters f = false := by simp [entityFiltered, noFilters]
  have h4 : bboxSkipped (some ⟨true, bds, v, w⟩) f = true := by
    simp [bboxSkipped, hdisj]
  have hp : ∀ c0 : ℕ, processFeature noFilters (some ⟨true, bds, v, w⟩) f c0 =
      .ok (.skippedOutside, c0) := by
    intro c0
    simp [processFeature, h1, h2, hsup, h4]
  refine ⟨hp c, ?_⟩
  rw [runAux, hp st.counter]
  simp [runAux, skipDelta, emitList]


lemma band_bnot_eq_false (a b : Bool) : (a && !b) = false ↔ (a = true → b = true) := by
  cases a <;> cases b <;> simp

lemma maskStage_keepR_iff (m : Mask) (polys R : List PolyC) :
    maskStage (some m) polys = .keepR R ↔
      ((polys.filter (fun p => m.isValid (xyExt p) && m.within (xyExt p))).isEmpty = false ∧
       polys.any (fun p => m.isValid (xyExt p) && !(m.within (xyExt p))) = false ∧
       R = polys.filter (fun p => m.isValid (xyExt p) && m.within (xyExt p))) := by
  simp only [maskStage]
  by_cases h1 : (polys.filter (fun p => m.isValid (xyExt p) && m.within (xyExt p))).isEmpty = true
  · rw [if_pos h1]
    constructor
    · intro h
      exact absurd h (by simp)
    · rintro ⟨h, -, -⟩
      rw [h1] at h
      exact absurd h (by simp)
  · rw [if_neg h1]
    by_cases h2 : polys.any (fun p => m.isValid (xyExt p) && !(m.within (xyExt p))) = true
    · rw [if_pos h2]
      constructor
      · intro h
        exact absurd h (by simp)
      · rintro ⟨-, h, -⟩
        rw [h2] at h
        exact absurd h (by simp)
    · rw [if_neg h2]
      constructor
      · intro h
        have hR := (MaskRes.keepR.inj h).symm
        exact ⟨by simpa using h1, by simpa using h2, hR⟩
      · rintro ⟨-, -, hR⟩
        rw [hR]

lemma filter_isEmpty_false_iff (polys : List PolyC) (pred : PolyC → Bool) :
    (polys.filter pred).isEmpty = false ↔ ∃ p ∈ polys, pred p = true := by
  rw [List.isEmpty_eq_false_iff_exists_mem]
  constructor
  · rintro ⟨p, hp⟩
    have := List.mem_filter.1 hp
    exact ⟨p, this.1, this.2⟩
  · rintro ⟨p, hp, hpred⟩
    exact ⟨p, List.mem_filter.2 ⟨hp, hpred⟩⟩

/-- Claim C4: with a mask, a feature passes the containment stage iff some ring is
valid-and-within and every valid ring is within; retained rings are exactly
the valid-and-within ones (invalid rings are excluded without failing the
feature by themselves); and a feature having any valid ring outside the mask
is never emitted. -/
theorem claim4_mask_containment (m : Mask) (polys : List PolyC) (P : Params)
    (f : Feature) (c : ℕ) :
    ((∃ R, maskStage (some m) polys = .keepR R) ↔
      ((∃ p ∈ polys, m.isValid (xyExt p) = true ∧ m.within (xyExt p) = true) ∧
       (∀ p ∈ polys, m.isValid (xyExt p) = true → m.within (xyExt p) = true))) ∧
    (∀ R, maskStage (some m) polys = .keepR R →
      ∀ p ∈ R, p ∈ polys ∧ m.isValid (xyExt p) = true ∧ m.within (xyExt p) = true) ∧
    (∀ o c2 e, processFeature P (some m) f c = .ok (o, c2) →
      (∃ p ∈ f.geom.extractPolys, m.isValid (xyExt p) = true ∧ m.within (xyExt p) = false) →
      o ≠ .emitted e) := by
  refine ⟨?_, ?_, ?_⟩
  · constructor
    · rintro ⟨R, hR⟩
      obtain ⟨h1, h2, -⟩ := (maskStage_keepR_iff m polys R).1 hR
      constructor
      · obtain ⟨p, hp, hpred⟩ := (filter_isEmpty_false_iff polys _).1 h1
        rw [Bool.and_eq_true] at hpred
        exact ⟨p, hp, hpred.1, hpred.2⟩
      · intro p hp hv
        have hall := List.any_eq_false.1 h2 p hp
        have hall2 : (m.isValid (xyExt p) && !(m.within (xyExt p))) = false := by
          simpa using hall
        exact (band_bnot_eq_false _ _).1 hall2 hv
    · rintro ⟨⟨p, hp, hv, hw⟩, hall⟩
      refine ⟨polys.filter (fun p => m.isValid (xyExt p) && m.within (xyExt p)), ?_⟩
      rw [maskStage_keepR_iff]
      refine ⟨?_, ?_, rfl⟩
      · exact (filter_isEmpty_false_iff polys _).2 ⟨p, hp, by rw [Bool.and_eq_true]; exact ⟨hv, hw⟩⟩
      · rw [List.any_eq_false]
        intro q hq
        simpa using (band_bnot_eq_false _ _).2 (hall q hq)
  · intro R hR p hp
    obtain ⟨-, -, hfil⟩ := (maskStage_keepR_iff m polys R).1 hR
    rw [hfil] at hp
    have := List.mem_filter.1 hp
    rw [Bool.and_eq_true] at this
    exact ⟨this.1, (this.2).1, (this.2).2⟩
  · rintro o c2 e h ⟨p, hp, hv, hw⟩ rfl
    obtain ⟨R, hR, -, -⟩ := processFeature_emit P (some m) f c c2 e h
    obtain ⟨-, hany, -⟩ := (maskStage_keepR_iff m _ R).1 hR
    have : (f.geom.extractPolys).any
        (fun p => m.isValid (xyExt p) && !(m.within (xyExt p))) = true := by
      rw [List.any_eq_true]
      exact ⟨p, hp, by rw [hv, hw]; rfl⟩
    rw [hany] at this
    exact absurd this (by simp)

lemma runAux_append (P : Params) (mask : Option Mask) (xs ys : List Feature) (st : RunState) :
    runAux P mask (xs ++ ys) st =
      match runAux P mask xs st with
      | .ok st2 => runAux P mask ys st2
      | .error e => .error e := by
  induction xs generalizing st with
  | nil => simp [runAux]
  | cons f t ih =>
      rw [List.cons_append]
      cases h : processFeature P mask f st.counter with
      | error e => simp [runAux, h]
      | ok oc =>
          obtain ⟨o, c⟩ := oc
          simp only [runAux, h]
          exact ih _

/-- Claim C1 (amended): a feature that reaches mesh construction (passes the
attribute, geometry-kind, bounding-box and containment gates) and contains a
point with |x| + |y| + |z| <= 1 triggers the uncaught assertion of line 276,
aborting the entire run with no result; later features are not processed. -/
theorem claim1_amended_run_aborts (P : Params) (mask : Option Mask)
    (pre post : List Feature) (f : Feature) (st2 : RunState) (R : List PolyC)
    (hpre : runAux P mask pre ⟨0, 0, []⟩ = .ok st2)
    (hL : layerFiltered P f = false) (hE : entityFiltered P f = false)
    (hg : f.geom.supported = true) (hb : bboxSkipped mask f = false)
    (hm : maskStage mask f.geom.extractPolys = .keepR R)
    (hd : hasDegeneratePoint R = true) :
    process_buildings_from_zips P mask (pre ++ f :: post) = .error () := by
  have hf : ∀ c0 : ℕ, processFeature P mask f c0 = .error () := by
    intro c0
    simp only [processFeature, hL, hE, hg, hb, hm, hd]
    simp
  unfold process_buildings_from_zips
  rw [runAux_append, hpre]
  simp only [runAux, hf st2.counter]

lemma maskStage_within_false (m : Mask) (hw : ∀ xs, m.within xs = false)
    (polys : List PolyC) : maskStage (some m) polys = .dropNoValid := by
  simp only [maskStage]
  have h0 : polys.filter (fun p => m.isValid (xyExt p) && m.within (xyExt p)) = [] := by
    rw [List.filter_eq_nil_iff]
    intro p hp
    rw [hw]
    simp
  rw [h0]
  simp

lemma processFeature_within_false (P : Params) (m : Mask) (f : Feature) (c : ℕ)
    (hw : ∀ xs, m.within xs = false) :
    ∃ o, processFeature P (some m) f c = .ok (o, c) ∧ emitList o = [] := by
  simp only [processFeature]
  by_cases hL : layerFiltered P f = true
  · rw [if_pos hL]
    exact ⟨.filtered, rfl, rfl⟩
  · rw [if_neg hL]
    by_cases hE : entityFiltered P f = true
    · rw [if_pos hE]
      exact ⟨.filtered, rfl, rfl⟩
    · rw [if_neg hE]
      by_cases hg : (!f.geom.supported) = true
      · rw [if_pos hg]
        exact ⟨.unsupportedGeom, rfl, rfl⟩
      · rw [if_neg hg]
        by_cases hb : bboxSkipped (some m) f = true
        · rw [if_pos hb]
          exact ⟨.skippedOutside, rfl, rfl⟩
        · rw [if_neg hb]
          rw [maskStage_within_false m hw]
          exact ⟨.droppedNoValid, rfl, rfl⟩

lemma runAux_within_false (P : Params) (m : Mask) (fs : List Feature)
    (hw : ∀ xs, m.within xs = false) :
    ∀ st, ∃ sk, runAux P (some m) fs st = .ok ⟨st.counter, sk, st.emits⟩ := by
  induction fs with
  | nil => intro st; exact ⟨st.skips, rfl⟩
  | cons f t ih =>
      intro st
      obtain ⟨o, ho, he⟩ := processFeature_within_false P m f st.counter hw
      obtain ⟨sk, hs⟩ := ih ⟨st.counter, st.skips + skipDelta o, st.emits ++ emitList o⟩
      rw [he, List.append_nil] at hs
      refine ⟨sk, ?_⟩
      simp only [runAux, ho]
      rw [he, List.append_nil]
      exact hs

/-- Claim C9 (amended): the pipeline performs no region validation at all: for a
degenerate region (shapely within returns false against a region with fewer
than 3 distinct vertices or zero area), the run does not fail fast with any
error; it completes normally, every feature is dropped by the spatial
filter, and the result is an empty grouping. -/
theorem claim9_amended_no_region_validation (P : Params) (m : Mask) (fs : List Feature)
    (hw : ∀ xs, m.within xs = false) :
    ∃ res, process_buildings_from_zips P (some m) fs = .ok res ∧
      res.emits = [] ∧ res.lut = [] := by
  obtain ⟨sk, h⟩ := runAux_within_false P m fs hw ⟨0, 0, []⟩
  refine ⟨⟨[], sk, [], 0⟩, ?_, rfl, rfl⟩
  unfold process_buildings_from_zips
  rw [h]
  rfl


lemma zfold_le_init (l : List Point) (m : ℚ) :
    l.foldl (fun m q => if q.z < m then q.z else m) m ≤ m := by
  induction l generalizing m with
  | nil => exact le_refl m
  | cons a t ih =>
      refine le_trans (ih _) ?_
      show (if a.z < m then a.z else m) ≤ m
      by_cases h : a.z < m
      · rw [if_pos h]
        exact le_of_lt h
      · rw [if_neg h]

lemma zfold_le_mem (l : List Point) (m : ℚ) :
    ∀ q ∈ l, l.foldl (fun m q => if q.z < m then q.z else m) m ≤ q.z := by
  induction l generalizing m with
  | nil => intro q hq; exact absurd hq (by simp)
  | cons a t ih =>
      intro q hq
      rcases List.mem_cons.1 hq with rfl | hq2
      · refine le_trans (zfold_le_init t _) ?_
        show (if q.z < m then q.z else m) ≤ q.z
        by_cases h : q.z < m
        · rw [if_pos h]
        · rw [if_neg h]
          exact le_of_not_lt h
      · exact ih _ q hq2

lemma zfold_mem_or (l : List Point) (m : ℚ) :
    l.foldl (fun m q => if q.z < m then q.z else m) m = m ∨
      ∃ q ∈ l, l.foldl (fun m q => if q.z < m then q.z else m) m = q.z := by
  induction l generalizing m with
  | nil => exact Or.inl rfl
  | cons a t ih =>
      rw [List.foldl_cons]
      show List.foldl _ (if a.z < m then a.z else m) t = m ∨ _
      rcases ih (if a.z < m then a.z else m) with h | ⟨q, hq, he⟩
      · by_cases ha : a.z < m
        · rw [if_pos ha] at h ⊢
          exact Or.inr ⟨a, List.mem_cons_self a t, h⟩
        · rw [if_neg ha] at h ⊢
          exact Or.inl h
      · exact Or.inr ⟨q, List.mem_cons.2 (Or.inr hq), by
          show List.foldl _ (if a.z < m then a.z else m) t = q.z
          exact he⟩

lemma minfold_le_init (R : List PolyC) (m : ℚ) :
    R.foldl (fun m p => (extRing p).foldl (fun m q => if q.z < m then q.z else m) m) m ≤ m := by
  induction R generalizing m with
  | nil => exact le_refl m
  | cons p t ih => exact le_trans (ih _) (zfold_le_init _ _)

lemma minfold_le_mem (R : List PolyC) (m : ℚ) :
    ∀ p ∈ R, ∀ q ∈ extRing p,
      R.foldl (fun m p => (extRing p).foldl (fun m q => if q.z < m then q.z else m) m) m ≤ q.z := by
  induction R generalizing m with
  | nil => intro p hp; exact absurd hp (by simp)
  | cons a t ih =>
      intro p hp q hq
      rcases List.mem_cons.1 hp with rfl | hp2
      · exact le_trans (minfold_le_init t _) (zfold_le_mem _ _ q hq)
      · exact ih _ p hp2 q hq

lemma minfold_mem_or (R : List PolyC) (m : ℚ) :
    R.foldl (fun m p => (extRing p).foldl (fun m q => if q.z < m then q.z else m) m) m = m ∨
      ∃ p ∈ R, ∃ q ∈ extRing p,
        R.foldl (fun m p => (extRing p).foldl (fun m q => if q.z < m then q.z else m) m) m = q.z := by
  induction R generalizing m with
  | nil => exact Or.inl rfl
  | cons a t ih =>
      rw [List.foldl_cons]
      rcases ih ((extRing a).foldl (fun m q => if q.z < m then q.z else m) m) with h | ⟨p, hp, q, hq, he⟩
      · rcases zfold_mem_or (extRing a) m with h2 | ⟨q, hq, he2⟩
        · exact Or.inl (h.trans h2)
        · exact Or.inr ⟨a, List.mem_cons_self a t, q, hq, h.trans he2⟩
      · exact Or.inr ⟨p, List.mem_cons.2 (Or.inr hp), q, hq, he⟩

/-- Claim C5 (amended): min_elevation_feature is the minimum of the sentinel 9999
and the z coordinates of all points of all retained rings (so it equals the
true minimum only when some elevation is below 9999); it is computed once
per feature from the whole retained list, and the kept faces of an emitted
building are exactly the rings classified keep against that one value, so
points of later-discarded faces still participate in it. -/
theorem claim5_amended_min_elevation (R : List PolyC) (P : Params) (mask : Option Mask)
    (f : Feature) (c c2 : ℕ) (e : Emit)
    (hemit : processFeature P mask f c = .ok (.emitted e, c2))
    (hkeep : maskStage mask f.geom.extractPolys = .keepR R) :
    min_elevation_feature R ≤ 9999 ∧
    (∀ p ∈ R, ∀ q ∈ extRing p, min_elevation_feature R ≤ q.z) ∧
    (min_elevation_feature R = 9999 ∨
      ∃ p ∈ R, ∃ q ∈ extRing p, min_elevation_feature R = q.z) ∧
    e.building.faces = keptFaces R := by
  obtain ⟨R0, hR0, -, hmk⟩ := processFeature_emit P mask f c c2 e hemit
  have hRR : R0 = R := MaskRes.keepR.inj (hR0.symm.trans hkeep)
  subst hRR
  have hfaces : e.building.faces = keptFaces R0 := by
    have he : e = (mkEmit f c (keptFaces R0)).1 := by
      rw [Prod.ext_iff] at hmk
      exact hmk.1
    obtain ⟨-, -, hf, -, -⟩ := mkEmit_fields f c (keptFaces R0)
    rw [he, hf]
  exact ⟨minfold_le_init R0 9999, minfold_le_mem R0 9999,
    minfold_mem_or R0 9999, hfaces⟩

/-- The synthetic identifier building_<n> of line 313. -/
def synthName (n : ℕ) : String :=
  "building_" ++ toString n

/-- Python falsiness of the EntityHand attribute at line 312: absent or the
empty string. -/
def idless (e : Emit) : Bool :=
  match e.srcId with
  | none => true
  | some s => decide (s = "")

/-- The ids of the emissions whose feature supplied no usable identifier, in
processing order. -/
def synthIds (es : List Emit) : List String :=
  (es.filter idless).map (fun e => e.building.id)

/-- An emission honours a supplied nonempty identifier. -/
def goodSupplied (e : Emit) : Prop :=
  ∀ s, e.srcId = some s → s ≠ "" → e.building.id = s

lemma mkEmit_goodSupplied (f : Feature) (c : ℕ) (fac : List Ring3D) :
    goodSupplied (mkEmit f c fac).1 := by
  intro s hs hne
  cases hE : f.entityHand with
  | none => simp [mkEmit, hE] at hs
  | some s0 =>
      by_cases h0 : s0 = ""
      · simp [mkEmit, hE, h0] at hs
        exact absurd hs.symm hne
      · simp only [mkEmit, hE, if_neg h0] at hs ⊢
        simp only [Option.some.injEq] at hs
        rw [← hs]

lemma mkEmit_idless (f : Feature) (c : ℕ) (fac : List Ring3D) :
    (idless (mkEmit f c fac).1 = true →
      (mkEmit f c fac).1.building.id = synthName c ∧ (mkEmit f c fac).2 = c + 1) ∧
    (idless (mkEmit f c fac).1 = false → (mkEmit f c fac).2 = c) := by
  cases hE : f.entityHand with
  | none =>
      constructor
      · intro _
        constructor
        · simp [mkEmit, hE, synthName]
        · simp [mkEmit, hE]
      · intro h
        simp [idless, mkEmit, hE] at h
  | some s0 =>
      by_cases h0 : s0 = ""
      · constructor
        · intro _
          constructor
          · simp [mkEmit, hE, h0, synthName]
          · simp [mkEmit, hE, h0]
        · intro h
          simp [idless, mkEmit, hE, h0] at h
      · constructor
        · intro h
          simp [idless, mkEmit, hE, h0] at h
        · intro _
          simp [mkEmit, hE, h0]

lemma processFeature_shape (P : Params) (mask : Option Mask) (f : Feature) (c c2 : ℕ)
    (o : Outcome) (h : processFeature P mask f c = .ok (o, c2)) :
    (∃ e R, o = .emitted e ∧ maskStage mask f.geom.extractPolys = .keepR R ∧
      (e, c2) = mkEmit f c (keptFaces R)) ∨
    (emitList o = [] ∧ c2 = c) := by
  simp only [processFeature] at h
  split at h
  · right
    have := h
    simp only [Except.ok.injEq, Prod.mk.injEq] at this
    exact ⟨by rw [← this.1]; rfl, this.2.symm⟩
  · split at h
    · right
      have := h
      simp only [Except.ok.injEq, Prod.mk.injEq] at this
      exact ⟨by rw [← this.1]; rfl, this.2.symm⟩
    · split at h
      · right
        have := h
        simp only [Except.ok.injEq, Prod.mk.injEq] at this
        exact ⟨by rw [← this.1]; rfl, this.2.symm⟩
      · split at h
        · right
          have := h
          simp only [Except.ok.injEq, Prod.mk.injEq] at this
          exact ⟨by rw [← this.1]; rfl, this.2.symm⟩
        · split at h
          · right
            have := h
            simp only [Except.ok.injEq, Prod.mk.injEq] at this
            exact ⟨by rw [← this.1]; rfl, this.2.symm⟩
          · right
            have := h
            simp only [Except.ok.injEq, Prod.mk.injEq] at this
            exact ⟨by rw [← this.1]; rfl, this.2.symm⟩
          · rename_i R hm
            split at h
            · exact absurd h (by simp)
            · left
              have := h
              simp only [Except.ok.injEq, Prod.mk.injEq] at this
              refine ⟨(mkEmit f c (keptFaces R)).1, R, ?_, hm, ?_⟩
              · rw [← this.1]
              · rw [Prod.ext_iff]
                exact ⟨rfl, this.2.symm⟩

lemma synthIds_cons_idless (e : Emit) (es : List Emit) (h : idless e = true) :
    synthIds (e :: es) = e.building.id :: synthIds es := by
  unfold synthIds
  rw [List.filter_cons_of_pos h]
  rfl

lemma synthIds_cons_not_idless (e : Emit) (es : List Emit) (h : idless e = false) :
    synthIds (e :: es) = synthIds es := by
  unfold synthIds
  rw [List.filter_cons_of_neg (by simp [h])]

lemma runAux_ids_inv (P : Params) (mask : Option Mask) :
    ∀ (fs : List Feature) (st st2 : RunState),
      runAux P mask fs st = .ok st2 →
      ∃ tail, st2.emits = st.emits ++ tail ∧
        (∀ e ∈ tail, goodSupplied e) ∧
        st.counter ≤ st2.counter ∧
        synthIds tail = (List.range' st.counter (st2.counter - st.counter)).map synthName := by
  intro fs
  induction fs with
  | nil =>
      intro st st2 h
      have hst : st = st2 := by simpa [runAux] using h
      subst hst
      exact ⟨[], by simp, by simp, le_refl _, by simp [synthIds]⟩
  | cons f t ih =>
      intro st st2 h
      rw [runAux] at h
      cases hp : processFeature P mask f st.counter with
      | error e =>
          rw [hp] at h
          exact absurd h (by simp)
      | ok oc =>
          obtain ⟨o, c⟩ := oc
          rw [hp] at h
          obtain ⟨tail, het, hgood, hle, hsyn⟩ :=
            ih ⟨c, st.skips + skipDelta o, st.emits ++ emitList o⟩ st2 h
          rcases processFeature_shape P mask f st.counter c o hp with
            ⟨e, R, rfl, -, hmk⟩ | ⟨hnil, rfl⟩
          · have heq : e = (mkEmit f st.counter (keptFaces R)).1 := by
              rw [Prod.ext_iff] at hmk
              exact hmk.1
            have hcq : c = (mkEmit f st.counter (keptFaces R)).2 := by
              rw [Prod.ext_iff] at hmk
              exact hmk.2
            have hgoode : goodSupplied e := by
              rw [heq]
              exact mkEmit_goodSupplied f st.counter (keptFaces R)
            have hemits : st2.emits = st.emits ++ (e :: tail) := by
              rw [het]
              simp [emitList]
            have hle2 : c ≤ st2.counter := hle
            have hsyn2 : synthIds tail = (List.range' c (st2.counter - c)).map synthName := hsyn
            by_cases hid : idless e = true
            · have hsynth := ((mkEmit_idless f st.counter (keptFaces R)).1 (by rw [← heq]; exact hid))
              have hidv : e.building.id = synthName st.counter := by rw [heq]; exact hsynth.1
              have hcv : c = st.counter + 1 := by rw [hcq]; exact hsynth.2
              refine ⟨e :: tail, hemits, ?_, by omega, ?_⟩
              · intro x hx
                rcases List.mem_cons.1 hx with rfl | hx2
                · exact hgoode
                · exact hgood x hx2
              · rw [synthIds_cons_idless e tail hid, hidv, hsyn2, hcv]
                have hn : st2.counter - st.counter = (st2.counter - (st.counter + 1)) + 1 := by
                  omega
                rw [hn, List.range'_succ]
                rfl
            · have hidf : idless e = false := by simpa using hid
              have hcv : c = st.counter := by
                rw [hcq]
                exact (mkEmit_idless f st.counter (keptFaces R)).2 (by rw [← heq]; exact hidf)
              refine ⟨e :: tail, hemits, ?_, by omega, ?_⟩
              · intro x hx
                rcases List.mem_cons.1 hx with rfl | hx2
                · exact hgoode
                · exact hgood x hx2
              · rw [synthIds_cons_not_idless e tail hidf, hsyn2, hcv]
          · have hle2 : st.counter ≤ st2.counter := hle
            have hsyn2 : synthIds tail =
                (List.range' st.counter (st2.counter - st.counter)).map synthName := hsyn
            have hemits : st2.emits = st.emits ++ tail := by
              rw [het, hnil]
              simp
            exact ⟨tail, hemits, hgood, hle2, hsyn2⟩

/-- Claim C7: in any completed run, an emission whose feature supplied a nonempty
EntityHand carries exactly that identifier, and the ids of the remaining
emissions (identifier-less features) are building_0, building_1, ... in
processing order; the run is a pure function of its input, so two runs over
the same ordered input assign identical identifiers. -/
theorem claim7_identifiers (P : Params) (mask : Option Mask) (fs : List Feature)
    (res : RunResult) (h : process_buildings_from_zips P mask fs = .ok res) :
    (∀ e ∈ res.emits, ∀ s, e.srcId = some s → s ≠ "" → e.building.id = s) ∧
    synthIds res.emits = (List.range (synthIds res.emits).length).map synthName := by
  unfold process_buildings_from_zips at h
  cases hr : runAux P mask fs ⟨0, 0, []⟩ with
  | error e =>
      rw [hr] at h
      exact absurd h (by simp)
  | ok st2 =>
      rw [hr] at h
      have hres : res = ⟨buildLut st2.emits, st2.skips, st2.emits, st2.counter⟩ := by
        have := h
        simp only [Except.ok.injEq] at this
        exact this.symm
      subst hres
      obtain ⟨tail, het, hgood, -, hsyn⟩ := runAux_ids_inv P mask fs ⟨0, 0, []⟩ st2 hr
      have htail : st2.emits = tail := by simpa using het
      constructor
      · intro e he s h1 h2
        exact hgood e (htail ▸ he) s h1 h2
      · show synthIds st2.emits = (List.range (synthIds st2.emits).length).map synthName
        have hsyn2 : synthIds tail = (List.range' 0 st2.counter).map synthName := by
          have hc : st2.counter - 0 = st2.counter := by omega
          simpa [hc] using hsyn
        rw [htail, hsyn2]
        have hlen : ((List.range' 0 st2.counter).map synthName).length = st2.counter := by
          rw [List.length_map, List.length_range']
        rw [hlen, List.range_eq_range']


/-- Test fixture: a horizontal unit-square roof ring at elevation 0
(closing point repeated), Newell normal (0, 0, 8). -/
def sq0 : Ring3D :=
  [⟨10, 10, 0⟩, ⟨12, 10, 0⟩, ⟨12, 12, 0⟩, ⟨10, 12, 0⟩, ⟨10, 10, 0⟩]

/-- Test fixture: a vertical wall ring in the plane y = 0 spanning
elevations -1 to 0, Newell normal (0, -2, 0). -/
def wallB : Ring3D :=
  [⟨10, 0, -1⟩, ⟨11, 0, -1⟩, ⟨11, 0, 0⟩, ⟨10, 0, 0⟩, ⟨10, 0, -1⟩]

/-- Test fixture: a horizontal square ring at elevation 10000, above the
9999 sentinel of lines 255-260. -/
def sqHigh : Ring3D :=
  [⟨10, 10, 10000⟩, ⟨12, 10, 10000⟩, ⟨12, 12, 10000⟩, ⟨10, 12, 10000⟩, ⟨10, 10, 10000⟩]

/-- Test fixture: a feature with a roof and a wall polygon and no
EntityHand. -/
def fGood : Feature :=
  ⟨.multiPolygon [[sq0], [wallB]], some "Building", none, none⟩

/-- Test fixture: the same geometry with a supplied identifier. -/
def fBug : Feature :=
  ⟨.multiPolygon [[sq0], [wallB]], some "Building", some "H123", none⟩

/-- Test fixture: the same geometry with no attributes at all. -/
def fPlain : Feature :=
  ⟨.multiPolygon [[sq0], [wallB]], none, none, none⟩

/-- Test fixture: a single polygon whose only ring lies at elevation
10000. -/
def fHigh : Feature :=
  ⟨.polygon [sqHigh], none, none, none⟩

/-- Test fixture: a tiny ring whose points all fail the magnitude assert of
line 276 (|x| + |y| + |z| = 1/10). -/
def badRing : Ring3D :=
  [⟨1/10, 0, 0⟩, ⟨0, 1/10, 0⟩, ⟨0, 0, 1/10⟩]

/-- Test fixture: a feature carrying badRing. -/
def badF : Feature :=
  ⟨.polygon [badRing], none, none, none⟩

/-- The building emitted for fGood. -/
def bb0 : Building :=
  ⟨"building_0", "Building", 0, [sq0]⟩

/-- The building emitted for a second identifier-less copy of fGood. -/
def bb1 : Building :=
  ⟨"building_1", "Building", 0, [sq0]⟩

/-- The building emitted for fBug: the wall ring is discarded, the
elevation-0 roof ring survives because the feature minimum is -1. -/
def bBug : Building :=
  ⟨"H123", "Building", 0, [sq0]⟩

/-- The building emitted for fHigh: the ring survives the footprint test
because the sentinel minimum 9999 is 1 m below its elevation. -/
def bHigh : Building :=
  ⟨"building_0", "unknown", 0, [sqHigh]⟩

/-- The building emitted for fPlain. -/
def bPlain : Building :=
  ⟨"building_0", "unknown", 0, [sq0]⟩

/-- The run result for the sequence fGood, fBug, fGood. -/
def r7 : RunResult :=
  ⟨[("Building", [bb0, bBug, bb1])], 0,
   [⟨"Building", none, bb0⟩, ⟨"Building", some "H123", bBug⟩, ⟨"Building", none, bb1⟩], 2⟩

/-- Oracle for a degenerate (zero-area or fewer-than-3-distinct-vertices)
mask region: shapely's within is false against an empty-interior region,
its bounds collapse to a point, and the object is still truthy. -/
def m9 : Mask :=
  ⟨true, ⟨0, 0, 0, 0⟩, fun _ => true, fun _ => false⟩

/-- Oracle for a big square mask region: a ring polygon is valid iff it has
points, and within iff all its xy coordinates lie in [0, 100]^2. -/
def m4 : Mask :=
  ⟨true, ⟨0, 0, 100, 100⟩, (fun xs => !xs.isEmpty),
   (fun xs => xs.all (fun q =>
      decide (0 ≤ q.1) && decide (q.1 ≤ 100) && decide (0 ≤ q.2) && decide (q.2 ≤ 100)))⟩

/-- Claim C1 (counterexample): a run containing a feature with a
degenerate-magnitude point aborts with an error instead of skipping that
feature and continuing; the same good feature alone processes fine. -/
theorem claim1_counterexample :
    process_buildings_from_zips noFilters none [badF, fGood] = .error () ∧
    (process_buildings_from_zips noFilters none [fGood]).isOk = true :=
  ⟨by with_unfolding_all rfl, by with_unfolding_all rfl⟩

/-- Claim C1 (witness): the amended theorem applied to a one-feature run
over badF. -/
theorem claim1_amended_witness :
    process_buildings_from_zips noFilters none ([] ++ badF :: []) = .error () :=
  claim1_amended_run_aborts noFilters none [] [] badF ⟨0, 0, []⟩ [[badRing]]
    rfl rfl rfl rfl rfl rfl (by with_unfolding_all rfl)

/-- Claim C2 (witness): the footprint rule applied to the horizontal
square at the feature minimum, then with its first point raised by 0.11. -/
theorem claim2_witness :
    classifyPolygon 0 sq0 = .footprint ∧
    classifyPolygon 0 (sq0.set 0 ⟨10, 10, 0 + 11/100⟩) ≠ .footprint :=
  claim2_footprint_rule 0 sq0 0 10 10 (by with_unfolding_all rfl)
    (of_decide_eq_true (by with_unfolding_all rfl)) (by decide)

/-- Claim C3 (witness): the wall ring is discarded as a wall, the roof ring
is not. -/
theorem claim3_witness :
    classifyPolygon 0 wallB = .wall ∧ classifyPolygon (-1) sq0 ≠ .wall := by
  constructor
  · exact (claim3_wall_rule 0 wallB []).1.mpr (by with_unfolding_all rfl)
  · intro hcon
    have h1 := (claim3_wall_rule (-1) sq0 []).1.mp hcon
    have h2 : unitZLt (newellNormal sq0) (1/10) = false := by with_unfolding_all rfl
    rw [h1] at h2
    exact absurd h2 (by simp)

/-- Claim C4 (witness): a feature with one invalid (empty) ring and one
valid ring inside the big square mask passes containment. -/
theorem claim4_witness :
    ∃ R, maskStage (some m4) [([] : PolyC), [sq0]] = .keepR R :=
  (claim4_mask_containment m4 [([] : PolyC), [sq0]] noFilters fGood 0).1.mpr
    ⟨⟨[sq0], by simp, by with_unfolding_all rfl, by with_unfolding_all rfl⟩,
     of_decide_eq_true (by with_unfolding_all rfl)⟩

/-- Claim C5 (counterexample): for a feature whose only ring lies at
elevation 10000, the spec minimum is 10000 but min_elevation_feature stays
at the 9999 sentinel, and the difference is observable: the horizontal
ground-level ring is kept instead of footprint-discarded. -/
theorem claim5_counterexample :
    specMinZ [[sqHigh]] = some 10000 ∧
    min_elevation_feature [[sqHigh]] = 9999 ∧
    (9999 : ℚ) ≠ 10000 ∧
    classifyPolygon (min_elevation_feature [[sqHigh]]) sqHigh = .keep ∧
    classifyPolygon 10000 sqHigh = .footprint ∧
    process_buildings_from_zips noFilters none [fHigh] =
      .ok ⟨[("n/a", [bHigh])], 0, [⟨"n/a", none, bHigh⟩], 1⟩ :=
  ⟨by with_unfolding_all rfl, by with_unfolding_all rfl, by norm_num,
   by with_unfolding_all rfl, by with_unfolding_all rfl, by with_unfolding_all rfl⟩

/-- Claim C5 (witness): the amended minimum-elevation theorem applied to
the retained list of fGood. -/
theorem claim5_amended_witness :
    min_elevation_feature [[sq0], [wallB]] ≤ 9999 ∧
    (∀ p ∈ [[sq0], [wallB]], ∀ q ∈ extRing p,
      min_elevation_feature [[sq0], [wallB]] ≤ q.z) ∧
    (min_elevation_feature [[sq0], [wallB]] = 9999 ∨
      ∃ p ∈ [[sq0], [wallB]], ∃ q ∈ extRing p,
        min_elevation_feature [[sq0], [wallB]] = q.z) ∧
    (⟨"Building", none, bb0⟩ : Emit).building.faces = keptFaces [[sq0], [wallB]] :=
  claim5_amended_min_elevation [[sq0], [wallB]] noFilters none fGood 0 1
    ⟨"Building", none, bb0⟩ (by with_unfolding_all rfl) rfl

/-- Claim C6 (code bug): fBug survives filtering and keeps exactly one face
(the elevation-0 roof ring, kept because the feature minimum is -1), yet the
app-side height derivation reports both heights absent, because
"if z_coords.any():" in src/app.py line 92 is numpy truthiness (any nonzero
element), not an emptiness test: heights are not absent exactly when no
faces survive. -/
theorem claim6_code_bug_eval :
    process_buildings_from_zips noFilters none [fBug] =
      .ok ⟨[("Building", [bBug])], 0, [⟨"Building", some "H123", bBug⟩], 0⟩ ∧
    bBug.faces = [sq0] ∧
    bBug.faces ≠ [] ∧
    appHeights bBug = (none, none) := by
  refine ⟨by with_unfolding_all rfl, rfl, ?_, by with_unfolding_all rfl⟩
  intro h
  exact List.noConfusion h

/-- Claim C7 (witness): the identifier theorem applied to the run over
fGood, fBug, fGood: supplied id "H123" is honoured and the synthetic ids
are building_0, building_1 in processing order. -/
theorem claim7_witness :
    (∀ e ∈ r7.emits, ∀ s, e.srcId = some s → s ≠ "" → e.building.id = s) ∧
    synthIds r7.emits = (List.range (synthIds r7.emits).length).map synthName :=
  claim7_identifiers noFilters none [fGood, fBug, fGood] r7 (by with_unfolding_all rfl)

/-- Claim C8 (witness): the fast path applied to fGood (box [10,12]^2)
against a mask with bounding box [0,5]^2. -/
theorem claim8_witness :
    processFeature noFilters (some ⟨true, ⟨0, 0, 5, 5⟩, fun _ => true, fun _ => true⟩)
      fGood 0 = .ok (.skippedOutside, 0) ∧
    runAux noFilters (some ⟨true, ⟨0, 0, 5, 5⟩, fun _ => true, fun _ => true⟩)
      [fGood] ⟨0, 0, []⟩ = .ok ⟨0, 0 + 1, []⟩ :=
  claim8_bbox_fastpath ⟨0, 0, 5, 5⟩ (fun _ => true) (fun _ => true) fGood 0 ⟨0, 0, []⟩
    rfl (by with_unfolding_all rfl)

/-- Claim C9 (counterexample): with a degenerate region the run does not
fail fast with an EmptyRegion/InvalidRegion error before processing
features: it processes its one feature (skipping it) and returns an
ordinary empty result. -/
theorem claim9_counterexample :
    process_buildings_from_zips noFilters (some m9) [fGood] = .ok ⟨[], 1, [], 0⟩ := by
  with_unfolding_all rfl

/-- Claim C9 (witness): the amended theorem applied to the degenerate mask
m9 and a one-feature run. -/
theorem claim9_amended_witness :
    ∃ res, process_buildings_from_zips noFilters (some m9) [fGood] = .ok res ∧
      res.emits = [] ∧ res.lut = [] :=
  claim9_amended_no_region_validation noFilters m9 [fGood] (fun _ => rfl)

/-- Claim C10 (witness): the defaults theorem applied to fPlain, which has
neither Layer nor Height. -/
theorem claim10_witness :
    (⟨"n/a", none, bPlain⟩ : Emit).building.layer = "unknown" ∧
    (⟨"n/a", none, bPlain⟩ : Emit).building.height = 0 := by
  have h := claim10_defaults noFilters none fPlain 0 1 ⟨"n/a", none, bPlain⟩
    (by with_unfolding_all rfl)
  exact ⟨h.1 rfl, h.2 rfl⟩

end Etl
